import Mathlib

/-!
Shallow embedding of the `source-span` crate (the highlight layout and
compositor engine), translated from `src/position.rs`, `src/metrics.rs`,
`src/lib.rs` and `src/fmt.rs`, together with theorems settling the claims
about it.

Conventions used throughout the embedding:
* Rust `usize` values are modelled as `Nat`; `usize` subtraction in the
  source is never executed on underflowing inputs on the paths the claims
  exercise, so Lean's truncating `Nat` subtraction is faithful there.
* Rust panics are modelled with `Option` (`none` = panic) where a claim
  needs them, and fallible iteration with `Except`.
* The crate is compiled without the `colors` feature, so `Color` is the
  unit type, exactly as `pub type Color = ();` in `fmt.rs`.
* `while` loops whose bound is data-dependent are given an explicit fuel
  argument; at every call site the fuel is chosen so that it strictly
  dominates the number of iterations the Rust loop performs, so the
  translation computes the same result.
-/

namespace SourceSpan

/-- `Color` with the `colors` feature disabled: `pub type Color = ();`. -/
def Color : Type := Unit

instance : DecidableEq Color := fun _ _ => isTrue rfl

instance : Inhabited Color := ⟨()⟩

instance : Repr Color := ⟨fun _ _ => "()"⟩

/-- `Position` from `src/position.rs`: line and column, both starting at 0. -/
structure Position where
  line : Nat
  column : Nat
deriving DecidableEq, Repr

/-- The strict lexicographic order on positions.  This is the order that
`#[derive(PartialOrd, Ord)]` produces for `Position { line, column }`:
compare `line` first, then `column`. -/
def Position.ltP (a b : Position) : Prop :=
  a.line < b.line ∨ (a.line = b.line ∧ a.column < b.column)

/-- The non-strict lexicographic order on positions (derived `Ord`). -/
def Position.leP (a b : Position) : Prop :=
  a.line < b.line ∨ (a.line = b.line ∧ a.column ≤ b.column)

instance (a b : Position) : Decidable (Position.ltP a b) := by
  unfold Position.ltP; exact inferInstance

instance (a b : Position) : Decidable (Position.leP a b) := by
  unfold Position.leP; exact inferInstance

/-- The `Ordering`-valued comparison that `#[derive(Ord)]` produces for
`Position`: compare the `line` fields, and if they are equal compare the
`column` fields. -/
def Position.cmpP (a b : Position) : Ordering :=
  if a.line < b.line then .lt
  else if b.line < a.line then .gt
  else if a.column < b.column then .lt
  else if b.column < a.column then .gt
  else .eq

/-- `Position::new`. -/
def Position.mkP (line column : Nat) : Position := ⟨line, column⟩

/-- `Position::next_column`. -/
def Position.next_column (p : Position) : Position := ⟨p.line, p.column + 1⟩

/-- `Position::reset_column`. -/
def Position.reset_column (p : Position) : Position := ⟨p.line, 0⟩

/-- `Position::next_line`. -/
def Position.next_line (p : Position) : Position := ⟨p.line + 1, 0⟩

/-- The `Metrics` trait from `src/metrics.rs`, modelled as a record of its
two methods: `char_width(c)` and `tab_stop()`. -/
structure Metrics where
  char_width : Char → Nat
  tab_stop : Nat

/-- `DEFAULT_METRICS`: the `DefaultMetrics` impl — CR and LF have width 0,
every other character width 1; the tab stop is 8. -/
def defaultMetrics : Metrics :=
  { char_width := fun c => if c = '\r' ∨ c = '\n' then 0 else 1
    tab_stop := 8 }

/-- Rust `char::is_control`: the Unicode `Cc` category, which is exactly
`U+0000..=U+001F` and `U+007F..=U+009F`. -/
def rustIsControl (c : Char) : Bool :=
  decide (c.toNat < 0x20) || (decide (0x7f ≤ c.toNat) && decide (c.toNat ≤ 0x9f))

/-- Rust `char::is_whitespace`: the Unicode `White_Space` property. -/
def rustIsWhitespace (c : Char) : Bool :=
  [0x9, 0xA, 0xB, 0xC, 0xD, 0x20, 0x85, 0xA0, 0x1680,
   0x2000, 0x2001, 0x2002, 0x2003, 0x2004, 0x2005, 0x2006, 0x2007,
   0x2008, 0x2009, 0x200A, 0x2028, 0x2029, 0x202F, 0x205F, 0x3000].contains c.toNat

/-- `Position::next` from `src/position.rs`: the cursor position after
consuming `c` under the given metrics.  `'\n'` moves to the next line,
`'\t'` to the next tab stop, other control characters are zero-width, and
any other character advances the column by its width. -/
def Position.next (p : Position) (c : Char) (metrics : Metrics) : Position :=
  if c = '\n' then p.next_line
  else if c = '\t' then
    let ts := metrics.tab_stop
    ⟨p.line, p.column / ts * ts + ts⟩
  else if rustIsControl c then p
  else ⟨p.line, p.column + metrics.char_width c⟩

/-- The cursor position after consuming a list of characters in order
(`pos.shift(c, metrics)` applied repeatedly, as the render loop does). -/
def posAfter (metrics : Metrics) (p : Position) (cs : List Char) : Position :=
  cs.foldl (fun p c => p.next c metrics) p

/-- `Span` from `src/lib.rs`: a range of characters between two cursor
positions.  `end` is a Lean keyword, so the third field is called `end_`. -/
structure Span where
  start : Position
  last : Position
  end_ : Position
deriving DecidableEq, Repr

/-- `Ord for Span` as implemented in `src/lib.rs` (lines 145-149):
`self.end.cmp(&other.end)` — spans are compared by their `end` position
alone. -/
def Span.cmp (a b : Span) : Ordering := Position.cmpP a.end_ b.end_

/-- `Span::new`, with the panic modelled as `none`.  The `end < start`
/ `last < start` normalisation happens first; then building a non-empty
span with `last >= end` panics. -/
def Span.new? (start last end_ : Position) : Option Span :=
  let p := if Position.ltP end_ start ∨ Position.ltP last start
    then (start, start) else (last, end_)
  let last := p.1
  let end_ := p.2
  if Position.leP end_ last ∧ end_ ≠ start then none
  else some { start := start, last := last, end_ := end_ }

/-- `Span::overlaps`. -/
def Span.overlaps (a b : Span) : Bool :=
  (decide (a.start.leP b.start) && decide (b.start.ltP a.end_))
    || (decide (b.start.leP a.start) && decide (a.start.ltP b.end_))

/-- `Span::line_count`: `last.line - start.line + 1`. -/
def Span.line_count (s : Span) : Nat := s.last.line - s.start.line + 1

/-- `Style` from `src/fmt.rs`: how a highlight is rendered. -/
inductive Style where
  | Error : Style
  | Warning : Style
  | Note : Style
  | Help : Style
  | Custom : Char → Char → Color → Style
deriving DecidableEq, Repr

/-- `Style::line`: the underline character. -/
def Style.line : Style → Char
  | .Error | .Warning => '^'
  | .Note | .Help => '_'
  | .Custom line _ _ => line

/-- `Style::marker`: the boundary marker character. -/
def Style.marker : Style → Char
  | .Error | .Warning | .Note | .Help => '^'
  | .Custom _ marker _ => marker

/-- `Style::color` (colors feature disabled: always the unit value). -/
def Style.color (_ : Style) : Color := ()

/-- The cell type `Char` from `src/fmt.rs` (named `Char_` here because
`Char` is Lean's character type, which the cells carry). -/
inductive Char_ where
  | Empty : Char_
  | Text : Char → Char_
  | Margin : Char → Color → Char_
  | Label : Char → Color → Char_
  | SpanMarker : Char → Color → Char_
  | SpanUnderline : Char → Color → Char_
  | SpanVertical : Color → Char_
  | SpanHorizontal : Color → Char_
  | SpanMargin : Color → Char_
  | SpanMarginMarker : Color → Char_
deriving DecidableEq, Repr

/-- `Char::unwrap`: the glyph a cell displays. -/
def Char_.unwrap : Char_ → Char
  | .Empty => ' '
  | .Text c => c
  | .Margin c _ => c
  | .Label c _ => c
  | .SpanUnderline c _ => c
  | .SpanMarker c _ => c
  | .SpanVertical _ => '|'
  | .SpanHorizontal _ => '_'
  | .SpanMargin _ => '|'
  | .SpanMarginMarker _ => '/'

/-- `Char::is_free`: only `Empty` is free. -/
def Char_.is_free : Char_ → Bool
  | .Empty => true
  | _ => false

def Char_.is_span_horizontal : Char_ → Bool
  | .SpanHorizontal _ => true
  | _ => false

def Char_.is_span_margin : Char_ → Bool
  | .SpanMargin _ => true
  | _ => false

/-- A 2D character map (`CharMap` in `src/fmt.rs`): a row-major vector of
cells with its current width and height. -/
structure CharMap where
  data : List Char_
  width : Nat
  height : Nat
deriving DecidableEq, Repr

/-- `CharMap::new`: the 1×1 grid holding a single `Empty` cell. -/
def CharMap.new : CharMap := ⟨[Char_.Empty], 1, 1⟩

/-- `CharMap::get`: out-of-range coordinates yield `Empty`. -/
def CharMap.get (m : CharMap) (x y : Nat) : Char_ :=
  if x ≥ m.width ∨ y ≥ m.height then Char_.Empty
  else m.data.getD (x + y * m.width) Char_.Empty

/-- The new value `CharMap::align`'s loop body stores at index `i`.
`oldWidth`/`oldHeight` are `self.width`/`self.height`, which Rust only
updates after `align` returns; the local `get` reads the data vector
being mutated through those old dimensions, exactly as `self.get` does
inside `align`. -/
def CharMap.alignCell (oldWidth oldHeight width : Nat)
    (data : List Char_) (i : Nat) : Char_ :=
  let x := i % width
  let y := i / width
  if x < oldWidth then
    if y < oldHeight then
      data.getD (x + y * oldWidth) Char_.Empty
    else
      let my := oldHeight - 1
      let get := fun a b =>
        if a ≥ oldWidth ∨ b ≥ oldHeight then Char_.Empty
        else data.getD (a + b * oldWidth) Char_.Empty
      match get x my, get (x + 1) my with
      | Char_.SpanMargin c, Char_.SpanHorizontal _ =>
        -- the guarded first match arm; on guard failure Rust falls
        -- through to the `(SpanMargin(c), _)` arm
        if x = 0 ∨ (get (x - 1) my).is_span_horizontal = false
        then Char_.Empty else Char_.SpanMargin c
      | Char_.SpanMargin c, _ => Char_.SpanMargin c
      | Char_.SpanMarginMarker c, _ => Char_.SpanMargin c
      | Char_.Empty, Char_.SpanHorizontal c => Char_.SpanMargin c
      | Char_.Margin ch c, _ =>
        if ch = '|' then Char_.Margin '|' c else Char_.Empty
      | _, _ => Char_.Empty
  else Char_.Empty

/-- One step of `CharMap::align`'s loop body: store the align-rule cell
at index `i`. -/
def CharMap.alignStep (oldWidth oldHeight width : Nat)
    (data : List Char_) (i : Nat) : List Char_ :=
  data.set i (CharMap.alignCell oldWidth oldHeight width data i)

/-- `CharMap::resize`: grow or shrink the data vector and migrate the
cells with the align rule.  When widening, the indices are visited in
reverse; when narrowing, forwards. -/
def CharMap.resize (m : CharMap) (width height : Nat) : CharMap :=
  let len := width * height
  if len = m.data.length then m
  else
    let data :=
      if len > m.data.length
      then m.data ++ List.replicate (len - m.data.length) Char_.Empty
      else m.data
    let idxs :=
      if width < m.width then List.range len else (List.range len).reverse
    let data := idxs.foldl (CharMap.alignStep m.width m.height width) data
    let data := if len < data.length then data.take len else data
    { data := data, width := width, height := height }

/-- `CharMap::reserve`: grow to at least the given dimensions. -/
def CharMap.reserve (m : CharMap) (width height : Nat) : CharMap :=
  m.resize (max width m.width) (max height m.height)

/-- `CharMap::set`: reserve room for `(x, y)` and store `c` there. -/
def CharMap.set (m : CharMap) (x y : Nat) (c : Char_) : CharMap :=
  let m := m.reserve (x + 1) (y + 1)
  { m with data := m.data.set (x + y * m.width) c }

/-- One iteration of `CharMap::draw_marker`'s loop: row `j` at column
`x`, with `head` recording whether the marker has been placed yet. -/
def CharMap.drawMarkerStep (style : Style) (x : Nat)
    (st : CharMap × Bool) (j : Nat) : CharMap × Bool :=
  let (m, head) := st
  let previous_c := m.get x j
  if previous_c.is_free || previous_c.is_span_horizontal then
    if head then (m.set x j (Char_.SpanVertical style.color), head)
    else (m.set x j (Char_.SpanMarker style.marker style.color), true)
  else (m, head)

/-- `CharMap::draw_marker`: for `j` in `1..=y` place the marker on the
first free-or-horizontal row and a vertical run on the later ones. -/
def CharMap.draw_marker (m : CharMap) (style : Style) (y x : Nat) : CharMap :=
  ((List.range' 1 y).foldl (CharMap.drawMarkerStep style x) (m, false)).1

/-- `CharMap::draw_open_line`: horizontal run from `start` to `end - 1`
(sparing the span margin), then a marker drop at `end`. -/
def CharMap.draw_open_line (m : CharMap) (style : Style)
    (y start end_ : Nat) : CharMap :=
  let m := m.reserve (end_ + 1) (y + 1)
  (List.range' start (end_ + 1 - start)).foldl (fun m x =>
    if x = end_ then m.draw_marker style y x
    else if (m.get x y).is_span_margin then m
    else m.set x y (Char_.SpanHorizontal style.color)) m

/-- `CharMap::draw_closed_line`: markers at both ends, underline (row 1)
or horizontal (other rows) in between. -/
def CharMap.draw_closed_line (m : CharMap) (style : Style)
    (y start end_ : Nat) : CharMap :=
  let m := m.reserve (end_ + 1) (y + 1)
  (List.range' start (end_ + 1 - start)).foldl (fun m x =>
    if x = start ∨ x = end_ then m.draw_marker style y x
    else if y = 1 then m.set x y (Char_.SpanUnderline style.line style.color)
    else m.set x y (Char_.SpanHorizontal style.color)) m

/-- `CharMap::is_rect_free`. -/
def CharMap.is_rect_free (m : CharMap) (offset_x offset_y width height : Nat) : Bool :=
  (List.range height).all (fun dy =>
    (List.range width).all (fun dx =>
      (m.get (offset_x + dx) (offset_y + dy)).is_free))

/-- `CharMap::draw_charmap`: stamp another grid at an offset. -/
def CharMap.draw_charmap (m : CharMap) (offset_x offset_y : Nat)
    (map : CharMap) : CharMap :=
  let m := m.reserve (offset_x + map.width) (offset_y + map.height)
  (List.range map.height).foldl (fun m y =>
    (List.range map.width).foldl (fun m x =>
      m.set (offset_x + x) (offset_y + y) (map.get x y)) m) m

/-- `CharMap::draw_charmap_if_free`: probe a rectangle padded on the left
and above, and stamp only if it is entirely free. -/
def CharMap.draw_charmap_if_free (m : CharMap) (offset_x offset_y : Nat)
    (map : CharMap) : CharMap × Bool :=
  let dx := if offset_x > 0 then 1 else 0
  let dy := if offset_y > 1 then 1 else 0
  if m.is_rect_free (offset_x - dx) (offset_y - dy)
      (map.width + dx + 1) (map.height + dy + 1)
  then (m.draw_charmap offset_x offset_y map, true)
  else (m, false)

/-- `CharMap::from_label`: lay a label string out as `Label` cells, the
cursor advancing through the metrics; newlines and tabs are skipped.  The
starting grid is 0×0 (`Vec::with_capacity` is just empty data). -/
def CharMap.from_label (text : List Char) (color : Color) (metrics : Metrics) : CharMap :=
  (text.foldl (fun (st : CharMap × Position) c =>
    let (map, pos) := st
    let map :=
      if c = '\n' ∨ c = '\t' then map
      else map.set pos.column pos.line (Char_.Label c color)
    (map, pos.next c metrics)) (⟨[], 0, 0⟩, ⟨0, 0⟩)).1

/-- `Display for CharMap`: rows top to bottom, each cell's glyph, a
newline after every row (color handling disappears without the `colors`
feature). -/
def CharMap.display (m : CharMap) : List Char :=
  (List.range m.height).flatMap (fun y =>
    ((List.range m.width).map (fun x =>
      (m.data.getD (x + y * m.width) Char_.Empty).unwrap)) ++ ['\n'])

/-- `Highlight`: a span, an optional label and a style.  The label is
modelled as its character list. -/
structure Highlight where
  span : Span
  label : Option (List Char)
  style : Style
deriving DecidableEq, Repr

/-- `MappedHighlight`: a highlight enriched with its three nesting
levels (the Rust struct borrows the highlight; here it is held by value). -/
structure MappedHighlight where
  h : Highlight
  margin_nest_level : Nat
  start_nest_level : Nat
  end_nest_level : Nat
deriving DecidableEq, Repr

def MappedHighlight.span (m : MappedHighlight) : Span := m.h.span

def MappedHighlight.style (m : MappedHighlight) : Style := m.h.style

def MappedHighlight.label (m : MappedHighlight) : Option (List Char) := m.h.label

/-- `Highlight::margin_nest_level`: 0 for single-line highlights;
otherwise start from 2 and push out by `2 + h.margin_nest_level` past
every already-mapped highlight whose span overlaps. -/
def Highlight.margin_nest_level (self : Highlight)
    (highlights : List MappedHighlight) : Nat :=
  if self.span.line_count > 1 then
    highlights.foldl (fun level h =>
      if self.span.overlaps h.span then max level (2 + h.margin_nest_level)
      else level) 2
  else 0

/-- `Highlight::start_nest_level`. -/
def Highlight.start_nest_level (self : Highlight)
    (highlights : List MappedHighlight)
    (first_non_whitespace : Option Nat) : Nat :=
  let fnwOk : Bool := match first_non_whitespace with
    | some fnw => decide (self.span.start.column ≤ fnw)
    | none => false
  if self.span.last.line > self.span.start.line ∧ fnwOk = true then 0
  else
    highlights.foldl (fun level h =>
      if (self.span.start.line = h.span.start.line
            ∨ self.span.start.line = h.span.last.line)
          ∧ (self.span.overlaps h.span ∨ self.span.line_count > 1)
      then max level (1 + h.start_nest_level)
      else level) 1

/-- `Highlight::end_nest_level`. -/
def Highlight.end_nest_level (self : Highlight)
    (highlights : List MappedHighlight) : Nat :=
  highlights.foldl (fun level h =>
    if (self.span.last.line = h.span.start.line
          ∨ self.span.last.line = h.span.last.line)
        ∧ self.span.overlaps h.span
    then max level (1 + h.end_nest_level)
    else level) 1

/-- `ImportantLines` from `src/fmt.rs`. -/
inductive ImportantLines where
  | All : ImportantLines
  | Lines : List Nat → Nat → ImportantLines

/-- The interval-halving loop of `slice::binary_search_by` as used by
`ImportantLines::includes`, searching for a candidate `c` with
`c - min(c, viewbox) ≤ line ≤ c + viewbox`.  The loop runs at most
`right - left` times (each step strictly shrinks the interval), so the
explicit fuel never runs out when it starts at `lines.length + 1`. -/
def ImportantLines.searchGo (lines : List Nat) (line viewbox : Nat) :
    Nat → Nat → Nat → Bool
  | 0, _, _ => false
  | fuel + 1, left, right =>
    if left < right then
      let size := right - left
      let mid := left + size / 2
      let candidate := lines.getD mid 0
      if line ≤ candidate + viewbox ∧ candidate - min candidate viewbox ≤ line
      then true
      else if line ≤ candidate + viewbox
      then ImportantLines.searchGo lines line viewbox fuel left mid
      else ImportantLines.searchGo lines line viewbox fuel (mid + 1) right
    else false

/-- `ImportantLines::includes`: a line is rendered iff it is within the
viewbox of some important line (binary search), or always when `All`. -/
def ImportantLines.includes : ImportantLines → Nat → Bool
  | .All, _ => true
  | .Lines important_lines viewbox, line =>
    ImportantLines.searchGo important_lines line viewbox
      (important_lines.length + 1) 0 important_lines.length

/-- `Formatter`: the highlight list plus rendering options. -/
structure Formatter where
  highlights : List Highlight
  margin_color : Color
  show_line_numbers : Bool
  use_line_begining_shortcut : Bool
  viewbox : Option Nat
deriving Repr

/-- `Default for Formatter` (colors feature disabled, so the margin
color is the unit value). -/
def Formatter.default : Formatter :=
  { highlights := []
    margin_color := ()
    viewbox := some 2
    show_line_numbers := true
    use_line_begining_shortcut := true }

/-- `Formatter::new`. -/
def Formatter.newF : Formatter := Formatter.default

/-- `Formatter::with_margin_color`. -/
def Formatter.with_margin_color (margin_color : Color) : Formatter :=
  { highlights := []
    margin_color := margin_color
    viewbox := some 2
    show_line_numbers := true
    use_line_begining_shortcut := true }

/-- `Formatter::set_line_numbers_visible`. -/
def Formatter.set_line_numbers_visible (f : Formatter) (visible : Bool) : Formatter :=
  { f with show_line_numbers := visible }

/-- `Formatter::show_line_numbers` exactly as written in `src/fmt.rs`
line 442: `self.show_line_numbers = false;`.  (`show_line_numbers` is
already the field name, hence the prime.) -/
def Formatter.show_line_numbers' (f : Formatter) : Formatter :=
  { f with show_line_numbers := false }

/-- `Formatter::hide_line_numbers`: `self.show_line_numbers = false;`. -/
def Formatter.hide_line_numbers (f : Formatter) : Formatter :=
  { f with show_line_numbers := false }

/-- `Formatter::set_viewbox`. -/
def Formatter.set_viewbox (f : Formatter) (viewbox : Option Nat) : Formatter :=
  { f with viewbox := viewbox }

/-- `Formatter::important_lines`: with a viewbox, the sorted list of each
highlight's start line and (when different) last line; without, `All`. -/
def Formatter.important_lines (f : Formatter) : ImportantLines :=
  match f.viewbox with
  | some viewbox =>
    let important_lines := f.highlights.foldl (fun acc h =>
      let acc := acc ++ [h.span.start.line]
      if h.span.start.line ≠ h.span.last.line then acc ++ [h.span.last.line]
      else acc) []
    ImportantLines.Lines (important_lines.insertionSort (· ≤ ·)) viewbox
  | none => ImportantLines.All

/-- Truncating base-10 logarithm with explicit fuel; `n` itself strictly
dominates the number of divisions by 10.  This models
`(v as f32).log10() as usize` in `Formatter::line_number_margin`, which
is exact on every value this development evaluates it at. -/
def floorLog10Go : Nat → Nat → Nat
  | 0, _ => 0
  | fuel + 1, n => if n < 10 then 0 else 1 + floorLog10Go fuel (n / 10)

def floorLog10 (n : Nat) : Nat := floorLog10Go n n

/-- `Formatter::line_number_margin`: room for the digits of the last
visible line, a space, a bar and a space; 0 when line numbers are hidden
or when a viewbox is set but there is no highlight at all. -/
def Formatter.line_number_margin (f : Formatter) (span : Span) : Nat :=
  if f.show_line_numbers then
    match f.viewbox with
    | some viewbox =>
      match f.highlights.getLast? with
      | some last_highlight =>
        floorLog10 (last_highlight.span.last.line + viewbox + 1) + 4
      | none => 0
    | none => floorLog10 (span.last.line + 1) + 4
  else 0

/-- The digit-emitting loop of `Formatter::draw_line_number`
(`while line > 0 { x -= 1; set digit; line /= 10 }`), with fuel that
strictly dominates the number of digits. -/
def Formatter.drawDigitsGo (margin_color : Color) :
    Nat → CharMap → Nat → Nat → CharMap
  | 0, cm, _, _ => cm
  | fuel + 1, cm, x, line =>
    if line > 0 then
      let x := x - 1
      let d := line % 10
      let cm := cm.set x 0 (Char_.Margin (Nat.digitChar d) margin_color)
      Formatter.drawDigitsGo margin_color fuel cm x (line / 10)
    else cm

/-- `Formatter::draw_line_number`: the `|` separator plus either the
1-based line number's digits or a run of dots for an elision row. -/
def Formatter.draw_line_number (f : Formatter) (line : Option Nat)
    (charmap : CharMap) (line_number_margin : Nat) : CharMap :=
  if line_number_margin > 0 then
    let charmap := charmap.set (line_number_margin - 2) 0
      (Char_.Margin '|' f.margin_color)
    match line with
    | some line =>
      Formatter.drawDigitsGo f.margin_color (line + 2) charmap
        (line_number_margin - 3) (line + 1)
    | none =>
      (List.range (line_number_margin - 3)).foldl (fun cm x =>
        cm.set x 0 (Char_.Margin '.' f.margin_color)) charmap
  else charmap

/-- The label-placement `while` loop in `draw_line_highlights`: keep
probing row `y` (then `y+1`, ...) until `draw_charmap_if_free` succeeds.
A failed probe leaves the map untouched, and every probe whose padded
rectangle starts at or below the current height succeeds because
out-of-range cells are free; hence `height + 2` fuel strictly dominates
the number of iterations. -/
def CharMap.placeLabelLoop (m : CharMap) (x : Nat) (labelMap : CharMap) :
    Nat → Nat → CharMap × Nat
  | _, 0 => (m, 0)
  | y, fuel + 1 =>
    let (m', ok) := m.draw_charmap_if_free x y labelMap
    if ok then (m', y)
    else m.placeLabelLoop x labelMap (y + 1) fuel

/-- The per-highlight label drawing at the end of
`Formatter::draw_line_highlights`: try `(x + 2, 1)` first, then search
downwards from row 3, and connect rows 2..y with a vertical run. -/
def CharMap.drawLabel (charmap : CharMap) (x : Nat) (labelMap : CharMap)
    (color : Color) : CharMap :=
  let (cm1, ok) := charmap.draw_charmap_if_free (x + 2) 1 labelMap
  let (charmap, y) :=
    if ok then (cm1, 1)
    else charmap.placeLabelLoop x labelMap 3 (charmap.height + 2)
  (List.range' 2 (y - 2)).foldl (fun cm vy =>
    cm.set x vy (Char_.SpanVertical color)) charmap

/-- The test `first_non_whitespace.is_some() && h.span().start.column <=
first_non_whitespace.unwrap()` guarding the line-beginning shortcut. -/
def fnwShortcut (first_non_whitespace : Option Nat) (h : MappedHighlight) : Bool :=
  match first_non_whitespace with
  | some fnw => decide (h.span.start.column ≤ fnw)
  | none => false

/-- The body of the first loop of `Formatter::draw_line_highlights` for
highlight index `i`: draw this highlight's opening/closing/rail cells
for the given line and store its updated nest levels back. -/
def drawLineHighlightsStep (line margin : Nat)
    (first_non_whitespace : Option Nat)
    (st : CharMap × List MappedHighlight) (i : Nat) : CharMap × List MappedHighlight :=
  let (charmap, highlights) := st
  match highlights.get? i with
  | none => st
  | some h =>
    let (charmap, h, shortcut) :=
      if h.span.start.line = line then
        let h := { h with start_nest_level :=
          h.h.start_nest_level (highlights.take i) first_non_whitespace }
        if h.span.last.line = line then
          (charmap.draw_closed_line h.style h.start_nest_level
            (margin + h.span.start.column) (margin + h.span.last.column), h, false)
        else if fnwShortcut first_non_whitespace h then
          (charmap.set (margin - h.margin_nest_level) 0
            (Char_.SpanMarginMarker h.style.color), h, true)
        else
          (charmap.draw_open_line h.style h.start_nest_level
            (margin - h.margin_nest_level + 1)
            (margin + h.span.start.column), h, false)
      else if h.span.last.line = line then
        let h := { h with end_nest_level := h.h.end_nest_level (highlights.take i) }
        (charmap.draw_open_line h.style h.end_nest_level
          (margin - h.margin_nest_level + 1)
          (margin + h.span.last.column), h, false)
      else (charmap, h, false)
    let charmap :=
      if shortcut ∨ (h.span.start.line < line ∧ line ≤ h.span.last.line) then
        let e := if h.span.last.line = line then h.end_nest_level
          else charmap.height - 1
        let x := margin - h.margin_nest_level
        let offset_y := if shortcut then 1 else 0
        (List.range' offset_y (e + 1 - offset_y)).foldl (fun cm yy =>
          cm.set x yy (Char_.SpanMargin h.style.color)) charmap
      else charmap
    (charmap, highlights.set i h)

/-- `Formatter::draw_line_highlights`: first pass draws span lines and
rails (updating the nest levels in place), second pass walks the
highlights in reverse and places the labels of those closing here. -/
def draw_line_highlights (line : Nat) (charmap : CharMap) (margin : Nat)
    (highlights : List MappedHighlight) (metrics : Metrics)
    (first_non_whitespace : Option Nat) : CharMap × List MappedHighlight :=
  let st := (List.range highlights.length).foldl
    (drawLineHighlightsStep line margin first_non_whitespace)
    (charmap, highlights)
  let charmap := st.1
  let highlights := st.2
  let charmap := highlights.reverse.foldl (fun charmap h =>
    if h.span.last.line = line then
      match h.label with
      | some label =>
        let label_charmap := CharMap.from_label label h.style.color metrics
        charmap.drawLabel (margin + h.span.last.column) label_charmap h.style.color
      | none => charmap
    else charmap) charmap
  (charmap, highlights)

/-- `Formatted`: the per-line grids a successful render returns. -/
structure Formatted where
  maps : List CharMap
deriving DecidableEq, Repr

/-- `Display for Formatted`: the concatenation of every grid's display. -/
def Formatted.display (f : Formatted) : List Char :=
  f.maps.flatMap CharMap.display

/-- The mutable state of `Formatter::render`'s scan over the input
stream: the cursor, the per-line grids built so far, the mapped
highlights (whose nest levels the drawing updates), whether the current
line is rendered, and the first non-whitespace column seen on it. -/
structure RenderState where
  pos : Position
  lines : List CharMap
  mapped : List MappedHighlight
  is_important_line : Bool
  first_non_whitespace : Option Nat

/-- `lines.last_mut()` followed by an update: replace the last grid.  The
empty case is unreachable in `render` (the vector starts non-empty and
never shrinks); Rust would panic on `unwrap`. -/
def modifyLast (g : CharMap → CharMap) (lines : List CharMap) : List CharMap :=
  match lines.getLast? with
  | none => lines
  | some last => lines.dropLast ++ [g last]

/-- Finalizing the grid of line `line`: draw its line number, then its
highlight decorations (which also update the mapped highlights). -/
def finalizeLine (f : Formatter) (line : Nat)
    (line_number_margin margin : Nat) (metrics : Metrics)
    (first_non_whitespace : Option Nat)
    (lines : List CharMap) (mapped : List MappedHighlight) :
    List CharMap × List MappedHighlight :=
  match lines.getLast? with
  | none => (lines, mapped)
  | some line_charmap =>
    let line_charmap := f.draw_line_number (some line) line_charmap line_number_margin
    let r := draw_line_highlights line line_charmap margin
      mapped metrics first_non_whitespace
    (lines.dropLast ++ [r.1], r.2)

/-- First half of the `'\n'` arm of the render loop: finalize the
current line's grid when that line is rendered. -/
def stepNewlineFinalized (f : Formatter) (line_number_margin margin : Nat)
    (metrics : Metrics) (st : RenderState) :
    List CharMap × List MappedHighlight :=
  if st.is_important_line then
    finalizeLine f st.pos.line line_number_margin margin metrics
      st.first_non_whitespace st.lines st.mapped
  else (st.lines, st.mapped)

/-- Second half of the `'\n'` arm: when re-entering the viewbox from an
elided stretch, append the dotted elision grid. -/
def stepNewlineViewboxed (f : Formatter) (line_number_margin margin : Nat)
    (metrics : Metrics) (st : RenderState)
    (lm : List CharMap × List MappedHighlight) :
    List CharMap × List MappedHighlight :=
  if st.is_important_line = false ∧ lm.1 ≠ [] then
    let viewbox_charmap := CharMap.new
    let viewbox_charmap := f.draw_line_number none viewbox_charmap line_number_margin
    let vm := draw_line_highlights st.pos.line
      viewbox_charmap margin lm.2 metrics none
    (lm.1 ++ [vm.1], vm.2)
  else lm

/-- The `'\n'` arm of the render loop: finalize the current line when it
is rendered, reset the whitespace tracker, insert an elision grid when
re-entering the viewbox, and open a fresh grid for the next line when it
is rendered. -/
def stepNewline (f : Formatter) (line_number_margin margin : Nat)
    (important_lines : ImportantLines) (metrics : Metrics)
    (st : RenderState) : RenderState :=
  let lm := stepNewlineFinalized f line_number_margin margin metrics st
  if important_lines.includes (st.pos.line + 1) then
    let lm2 := stepNewlineViewboxed f line_number_margin margin metrics st lm
    { st with
      lines := lm2.1 ++ [CharMap.new]
      mapped := lm2.2
      is_important_line := true
      first_non_whitespace := none }
  else
    { st with
      lines := lm.1
      mapped := lm.2
      is_important_line := false
      first_non_whitespace := none }

/-- The default arm of the render loop: on a rendered line, record the
first non-whitespace column (when the shortcut feature is on) and place
the character's `Text` cell at `margin + pos.column`. -/
def stepChar (f : Formatter) (margin : Nat) (c : Char) (st : RenderState) :
    RenderState :=
  if st.is_important_line then
    let first_non_whitespace :=
      if f.use_line_begining_shortcut ∧ st.first_non_whitespace = none
          ∧ rustIsWhitespace c = false ∧ rustIsControl c = false
      then some st.pos.column
      else st.first_non_whitespace
    let lines := modifyLast (fun lm =>
      lm.set (margin + st.pos.column) 0 (Char_.Text c)) st.lines
    { st with lines := lines, first_non_whitespace := first_non_whitespace }
  else st

/-- The `for c in input` loop of `Formatter::render`: stop as soon as the
cursor has passed `span.last()`, propagate the first upstream failure,
and otherwise dispatch on the character and advance the cursor. -/
def renderLoop {E : Type} (f : Formatter) (span : Span) (metrics : Metrics)
    (margin line_number_margin : Nat) (important_lines : ImportantLines) :
    List (Except E Char) → RenderState → Except E RenderState
  | [], st => .ok st
  | c :: rest, st =>
    if Position.ltP span.last st.pos then .ok st
    else
      match c with
      | .error e => .error e
      | .ok c =>
        let st' :=
          if c = '\n' then stepNewline f line_number_margin margin important_lines metrics st
          else if c = '\t' then st
          else stepChar f margin c st
        renderLoop f span metrics margin line_number_margin important_lines rest
          { st' with pos := st'.pos.next c metrics }

/-- `Formatter::render`: map the highlights, compute the margins, scan
the input, and finalize the last rendered line. -/
def Formatter.render {E : Type} (f : Formatter) (input : List (Except E Char))
    (span : Span) (metrics : Metrics) : Except E Formatted :=
  let init : List MappedHighlight × Nat := ([], 0)
  let mh := f.highlights.foldl (fun acc h =>
    let margin_nest_level := h.margin_nest_level acc.1
    (acc.1 ++ [{ h := h, margin_nest_level := margin_nest_level,
                 start_nest_level := 0, end_nest_level := 0 }],
     if margin_nest_level > acc.2 then margin_nest_level else acc.2)) init
  let mapped_highlights := mh.1
  let nest_margin := mh.2
  let line_number_margin := f.line_number_margin span
  let margin := line_number_margin + nest_margin
  let important_lines := f.important_lines
  let is_important_line := important_lines.includes span.start.line
  let lines := [CharMap.new]
  let lines := if is_important_line then lines ++ [CharMap.new] else lines
  let st0 : RenderState :=
    { pos := span.start, lines := lines, mapped := mapped_highlights,
      is_important_line := is_important_line, first_non_whitespace := none }
  match renderLoop f span metrics margin line_number_margin important_lines input st0 with
  | .error e => .error e
  | .ok st =>
    let lines :=
      if st.is_important_line then
        (finalizeLine f st.pos.line line_number_margin margin metrics
          st.first_non_whitespace st.lines st.mapped).1
      else st.lines
    .ok { maps := lines }

/-- Well-formedness of a `CharMap`: the data vector has exactly
`width * height` cells.  This is the invariant `resize` maintains and
every grid the crate builds satisfies; Rust's direct `self.data[...]`
indexing relies on it. -/
def CharMap.wf (m : CharMap) : Prop := m.data.length = m.width * m.height

instance (m : CharMap) : Decidable m.wf := by unfold CharMap.wf; exact inferInstance

/-- The cell predicate `draw_marker` writes through: free or a
horizontal span run. -/
def eligMarker (c : Char_) : Bool := c.is_free || c.is_span_horizontal

/-- Whether column `x` holds a `draw_marker`-eligible cell on some row
in `[lo, lo + len)`. -/
def anyElig (m : CharMap) (x lo len : Nat) : Bool :=
  (List.range' lo len).any (fun i => eligMarker (m.get x i))

/-- The loop invariant of `Formatter::render`'s scan: the untouched
initial grid stays in front, and whenever the current line is rendered a
dedicated grid for it sits behind the initial one. -/
def RenderInv (st : RenderState) : Prop :=
  st.lines.head? = some CharMap.new ∧
  (st.is_important_line = true → 2 ≤ st.lines.length)

end SourceSpan

namespace SourceSpan

/-! ### Theorems -/

theorem Position.leP_refl (a : Position) : a.leP a := Or.inr ⟨rfl, Nat.le_refl _⟩

theorem Position.leP_trans {a b c : Position} (h1 : a.leP b) (h2 : b.leP c) : a.leP c := by
  cases a; cases b; cases c
  simp only [Position.leP] at *
  omega

theorem Position.not_ltP_of_leP {a b : Position} (h : a.leP b) : ¬ b.ltP a := by
  cases a; cases b
  simp only [Position.leP, Position.ltP] at *
  omega

/-- Core monotonicity lemma: consuming one character never moves the
cursor backwards in the lexicographic order, provided the tab stop is
positive (a zero tab stop makes the Rust code panic with a division by
zero before producing a position). -/
theorem next_mono (p : Position) (c : Char) (metrics : Metrics)
    (hts : 1 ≤ metrics.tab_stop) : p.leP (p.next c metrics) := by
  unfold Position.next
  split
  · exact Or.inl (Nat.lt_succ_self _)
  · split
    · refine Or.inr ⟨rfl, ?_⟩
      show p.column ≤ p.column / metrics.tab_stop * metrics.tab_stop + metrics.tab_stop
      have hdm := Nat.div_add_mod p.column metrics.tab_stop
      rw [Nat.mul_comm] at hdm
      have hlt : p.column % metrics.tab_stop < metrics.tab_stop :=
        Nat.mod_lt _ (by omega)
      omega
    · split
      · exact p.leP_refl
      · exact Or.inr ⟨rfl, Nat.le_add_right _ _⟩

theorem posAfter_mono (metrics : Metrics) (hts : 1 ≤ metrics.tab_stop) :
    ∀ (cs : List Char) (p : Position), p.leP (posAfter metrics p cs) := by
  intro cs
  induction cs with
  | nil => intro p; exact p.leP_refl
  | cons c cs ih =>
    intro p
    exact Position.leP_trans (next_mono p c metrics hts) (ih (p.next c metrics))

/-- C2 counterexample.  The span `a = [(0,0), (0,1), (0,2)]` strictly
includes `b = [(0,1), (0,1), (0,2)]` (`a.start ≤ b.start`,
`b.end ≤ a.end`, `a ≠ b`), so the claim demands `cmp a b = Greater`; the
implementation compares the `end` positions only and returns `Equal`. -/
theorem c2_counterexample :
    Span.cmp ⟨⟨0, 0⟩, ⟨0, 1⟩, ⟨0, 2⟩⟩ ⟨⟨0, 1⟩, ⟨0, 1⟩, ⟨0, 2⟩⟩ = Ordering.eq
    ∧ (⟨⟨0, 0⟩, ⟨0, 1⟩, ⟨0, 2⟩⟩ : Span) ≠ ⟨⟨0, 1⟩, ⟨0, 1⟩, ⟨0, 2⟩⟩
    ∧ Position.leP ⟨0, 0⟩ ⟨0, 1⟩
    ∧ Position.leP ⟨0, 2⟩ ⟨0, 2⟩
    ∧ Ordering.eq ≠ Ordering.gt := by
  refine ⟨rfl, by decide, by decide, by decide, by decide⟩

/-- C2 (amended): `Ord for Span` compares spans by their `end` position
alone, under the derived lexicographic order on positions — `Equal` iff
the ends coincide, `Less`/`Greater` according to the strict order of the
ends.  Containment plays no role. -/
theorem c2_span_cmp_by_end (a b : Span) :
    (a.cmp b = Ordering.eq ↔ a.end_ = b.end_)
    ∧ (a.cmp b = Ordering.lt ↔ a.end_.ltP b.end_)
    ∧ (a.cmp b = Ordering.gt ↔ b.end_.ltP a.end_) := by
  rcases a with ⟨as, al, ⟨l1, c1⟩⟩
  rcases b with ⟨bs, bl, ⟨l2, c2⟩⟩
  simp only [Span.cmp, Position.cmpP, Position.ltP]
  split_ifs <;> simp_all [Position.mk.injEq] <;> omega

/-- C7: `Span::new` panics exactly when asked to build a non-empty span
whose `last` is not strictly before `end` (given `start ≤ last` and
`start ≤ end`); and whenever `end < start` or `last < start` it returns
the empty span at `start` without panicking. -/
theorem c7_span_new_panics (s l e : Position) :
    (s.leP l → s.leP e → (Span.new? s l e = none ↔ (e.leP l ∧ e ≠ s)))
    ∧ ((e.ltP s ∨ l.ltP s) → Span.new? s l e = some ⟨s, s, s⟩) := by
  constructor
  · intro h1 h2
    have hn : ¬ (Position.ltP e s ∨ Position.ltP l s) := by
      rintro (h | h)
      · exact Position.not_ltP_of_leP h2 h
      · exact Position.not_ltP_of_leP h1 h
    simp only [Span.new?, if_neg hn]
    by_cases hc : Position.leP e l ∧ e ≠ s <;> simp [hc]
  · intro h
    simp only [Span.new?, if_pos h]
    have : ¬ (Position.leP s s ∧ s ≠ s) := by simp
    simp [this]

/-- C7 witness at `start = (0,0)`, `last = (0,0)`, `end = (0,1)`:
a valid non-empty span, so no panic. -/
theorem c7_witness :
    Span.new? ⟨0, 0⟩ ⟨0, 0⟩ ⟨0, 1⟩ = none
      ↔ (Position.leP ⟨0, 1⟩ ⟨0, 0⟩ ∧ (⟨0, 1⟩ : Position) ≠ ⟨0, 0⟩) :=
  (c7_span_new_panics ⟨0, 0⟩ ⟨0, 0⟩ ⟨0, 1⟩).1 (by decide) (by decide)

/-- C8: consuming any character through a metric with a positive tab
stop yields a position that is `≥` the previous one in the lexicographic
order. -/
theorem c8_position_monotone (p : Position) (c : Char) (metrics : Metrics)
    (hts : 1 ≤ metrics.tab_stop) : p.leP (p.next c metrics) :=
  next_mono p c metrics hts

/-- C8 witness: a tab at column 5 under the default metrics moves the
cursor forward. -/
theorem c8_witness :
    Position.leP ⟨0, 5⟩ (Position.next ⟨0, 5⟩ '\t' defaultMetrics) :=
  c8_position_monotone ⟨0, 5⟩ '\t' defaultMetrics (by decide)

/-- C10: `Formatter::show_line_numbers()` sets the `show_line_numbers`
flag to `false` — identical to `hide_line_numbers()` — so any subsequent
render computes a zero line-number margin. -/
theorem c10_show_line_numbers_sets_false (f : Formatter) (span : Span) :
    f.show_line_numbers' = f.hide_line_numbers
    ∧ (f.show_line_numbers').show_line_numbers = false
    ∧ (f.show_line_numbers').line_number_margin span = 0
    ∧ ∀ (line : Option Nat) (charmap : CharMap),
        (f.show_line_numbers').draw_line_number line charmap
          ((f.show_line_numbers').line_number_margin span) = charmap := by
  have hm : (f.show_line_numbers').line_number_margin span = 0 := by
    simp [Formatter.line_number_margin, Formatter.show_line_numbers']
  refine ⟨rfl, rfl, hm, ?_⟩
  intro line charmap
  rw [hm]
  rfl

/-- The running-max fold of `Highlight::margin_nest_level` computes
exactly the maximum of its initial value and `2 + h'.margin_nest_level`
over the overlapping predecessors. -/
theorem mnl_fold_spec (s : Span) :
    ∀ (H : List MappedHighlight) (a : Nat),
      a ≤ H.foldl (fun level h =>
            if s.overlaps h.span then max level (2 + h.margin_nest_level)
            else level) a
      ∧ (∀ h' ∈ H, s.overlaps h'.span = true →
          2 + h'.margin_nest_level ≤ H.foldl (fun level h =>
            if s.overlaps h.span then max level (2 + h.margin_nest_level)
            else level) a)
      ∧ (H.foldl (fun level h =>
            if s.overlaps h.span then max level (2 + h.margin_nest_level)
            else level) a = a
         ∨ ∃ h' ∈ H, s.overlaps h'.span = true
            ∧ H.foldl (fun level h =>
                if s.overlaps h.span then max level (2 + h.margin_nest_level)
                else level) a = 2 + h'.margin_nest_level) := by
  intro H
  induction H with
  | nil => intro a; exact ⟨Nat.le_refl _, by simp, Or.inl rfl⟩
  | cons h H ih =>
    intro a
    by_cases hov : s.overlaps h.span
    · have ih' := ih (max a (2 + h.margin_nest_level))
      refine ⟨?_, ?_, ?_⟩
      · calc a ≤ max a (2 + h.margin_nest_level) := Nat.le_max_left _ _
          _ ≤ _ := by simpa [List.foldl_cons, hov] using ih'.1
      · intro h' hmem hov'
        rcases List.mem_cons.1 hmem with rfl | hmem'
        · calc 2 + h'.margin_nest_level ≤ max a (2 + h'.margin_nest_level) :=
            Nat.le_max_right _ _
            _ ≤ _ := by simpa [List.foldl_cons, hov] using ih'.1
        · simpa [List.foldl_cons, hov] using ih'.2.1 h' hmem' hov'
      · rcases ih'.2.2 with heq | ⟨h', hmem, hov', heq⟩
        · rcases max_choice a (2 + h.margin_nest_level) with hm | hm
          · exact Or.inl (by simpa [List.foldl_cons, hov, hm] using heq)
          · exact Or.inr ⟨h, List.mem_cons_self _ _, hov,
              by simpa [List.foldl_cons, hov, hm] using heq⟩
        · exact Or.inr ⟨h', List.mem_cons_of_mem _ hmem, hov',
            by simpa [List.foldl_cons, hov] using heq⟩
    · have ih' := ih a
      refine ⟨by simpa [List.foldl_cons, hov] using ih'.1, ?_, ?_⟩
      · intro h' hmem hov'
        rcases List.mem_cons.1 hmem with rfl | hmem'
        · exact absurd hov' (by simpa using hov)
        · simpa [List.foldl_cons, hov] using ih'.2.1 h' hmem' hov'
      · rcases ih'.2.2 with heq | ⟨h', hmem, hov', heq⟩
        · exact Or.inl (by simpa [List.foldl_cons, hov] using heq)
        · exact Or.inr ⟨h', List.mem_cons_of_mem _ hmem, hov',
            by simpa [List.foldl_cons, hov] using heq⟩

/-- C4: `margin_nest_level(h, H)` is 0 for a single-line span, and
otherwise is the maximum of 2 and `2 + h'.margin_nest_level` over the
already-mapped highlights `h'` whose span overlaps `h.span` (expressed
as: it dominates 2 and every such `2 + h'.margin_nest_level`, and is
attained by one of them or by the floor 2). -/
theorem c4_margin_nest_level (h : Highlight) (H : List MappedHighlight) :
    (h.span.line_count = 1 → h.margin_nest_level H = 0)
    ∧ (h.span.line_count ≠ 1 →
        2 ≤ h.margin_nest_level H
        ∧ (∀ h' ∈ H, h.span.overlaps h'.span = true →
            2 + h'.margin_nest_level ≤ h.margin_nest_level H)
        ∧ (h.margin_nest_level H = 2
           ∨ ∃ h' ∈ H, h.span.overlaps h'.span = true
              ∧ h.margin_nest_level H = 2 + h'.margin_nest_level)) := by
  have hlc : 1 ≤ h.span.line_count := Nat.le_add_left _ _
  constructor
  · intro h1
    unfold Highlight.margin_nest_level
    rw [if_neg (by omega)]
  · intro h1
    have h2 : h.span.line_count > 1 := by omega
    unfold Highlight.margin_nest_level
    rw [if_pos h2]
    exact (mnl_fold_spec h.span H 2)

/-- C4 witness: a single-line highlight has margin nest level 0. -/
theorem c4_witness :
    Highlight.margin_nest_level ⟨⟨⟨0, 0⟩, ⟨0, 0⟩, ⟨0, 1⟩⟩, none, Style.Error⟩ [] = 0 :=
  (c4_margin_nest_level ⟨⟨⟨0, 0⟩, ⟨0, 0⟩, ⟨0, 1⟩⟩, none, Style.Error⟩ []).1 (by decide)

theorem list_getD_set_self {α : Type} (l : List α) (i : Nat) (a d : α)
    (h : i < l.length) : (l.set i a).getD i d = a := by
  rw [List.getD_eq_getElem?_getD, List.getElem?_set_self h]
  rfl

theorem list_getD_set_ne {α : Type} (l : List α) (i j : Nat) (a d : α)
    (h : i ≠ j) : (l.set i a).getD j d = l.getD j d := by
  rw [List.getD_eq_getElem?_getD, List.getElem?_set_ne h,
    ← List.getD_eq_getElem?_getD]

/-- Row-major indices are injective on in-range columns. -/
theorem index_inj {w x x' y y' : Nat} (hx : x < w) (hx' : x' < w)
    (h : x + y * w = x' + y' * w) : x = x' ∧ y = y' := by
  have h1 : (x + y * w) % w = x % w := Nat.add_mul_mod_self_right x y w
  have h2 : (x' + y' * w) % w = x' % w := Nat.add_mul_mod_self_right x' y' w
  have h3 : x % w = x := Nat.mod_eq_of_lt hx
  have h4 : x' % w = x' := Nat.mod_eq_of_lt hx'
  have h5 : x % w = x' % w := by rw [← h1, ← h2, h]
  have hxx : x = x' := by omega
  subst hxx
  have : y * w = y' * w := by omega
  have hw : 0 < w := by omega
  exact ⟨rfl, Nat.eq_of_mul_eq_mul_right hw this⟩

theorem alignFoldl_length (ow oh w : Nat) :
    ∀ (idxs : List Nat) (data : List Char_),
      (idxs.foldl (CharMap.alignStep ow oh w) data).length = data.length := by
  intro idxs
  induction idxs with
  | nil => intro data; rfl
  | cons i idxs ih =>
    intro data
    rw [List.foldl_cons, ih]
    exact List.length_set ..

/-- `CharMap::resize` either is a no-op (requested size already equals
the data length — the dimensions are then left untouched) or produces a
map with exactly the requested dimensions and a matching data vector. -/
theorem resize_case (m : CharMap) (w h : Nat) :
    (w * h = m.data.length ∧ m.resize w h = m)
    ∨ (w * h ≠ m.data.length ∧ (m.resize w h).width = w
        ∧ (m.resize w h).height = h ∧ (m.resize w h).data.length = w * h) := by
  by_cases hc : w * h = m.data.length
  · exact Or.inl ⟨hc, by simp only [CharMap.resize, if_pos hc]⟩
  · refine Or.inr ⟨hc, ?_, ?_, ?_⟩
    · simp only [CharMap.resize, if_neg hc]
    · simp only [CharMap.resize, if_neg hc]
    · simp only [CharMap.resize, if_neg hc]
      by_cases hgt : w * h > m.data.length
      · rw [if_pos hgt]
        have hlen1 : (m.data ++ List.replicate (w * h - m.data.length) Char_.Empty).length
            = w * h := by
          rw [List.length_append, List.length_replicate]; omega
        have hfl : (List.foldl (CharMap.alignStep m.width m.height w)
            (m.data ++ List.replicate (w * h - m.data.length) Char_.Empty)
            (if w < m.width then List.range (w * h)
             else (List.range (w * h)).reverse)).length = w * h := by
          rw [alignFoldl_length]
          exact hlen1
        rw [hfl, if_neg (by omega)]
        exact hfl
      · rw [if_neg hgt]
        have hlt : w * h < m.data.length := by omega
        have hfl : (List.foldl (CharMap.alignStep m.width m.height w) m.data
            (if w < m.width then List.range (w * h)
             else (List.range (w * h)).reverse)).length = m.data.length :=
          alignFoldl_length _ _ _ _ _
        rw [hfl, if_pos (by omega), List.length_take, hfl]
        omega

/-- `CharMap::reserve` on a well-formed map: the result is well-formed
and has at least the requested (positive) dimensions. -/
theorem reserve_spec (m : CharMap) (w h : Nat) (hwf : m.wf)
    (hw : 1 ≤ w) (hh : 1 ≤ h) :
    (m.reserve w h).wf ∧ w ≤ (m.reserve w h).width ∧ h ≤ (m.reserve w h).height := by
  unfold CharMap.reserve
  rcases resize_case m (max w m.width) (max h m.height) with
    ⟨heq, hres⟩ | ⟨_, hw', hh', hlen⟩
  · rw [hres]
    rw [hwf] at heq
    have hWw : m.width ≤ max w m.width := Nat.le_max_right _ _
    have hHh : m.height ≤ max h m.height := Nat.le_max_right _ _
    have hH0 : 0 < max h m.height := by omega
    have hW0 : 0 < max w m.width := by omega
    have hWle : max w m.width ≤ m.width := by
      by_contra hlt
      push_neg at hlt
      have s1 : m.width * m.height ≤ m.width * max h m.height :=
        Nat.mul_le_mul_left _ hHh
      have s2 : m.width * max h m.height < max w m.width * max h m.height :=
        Nat.mul_lt_mul_of_lt_of_le hlt (Nat.le_refl _) hH0
      omega
    have hHle : max h m.height ≤ m.height := by
      by_contra hlt
      push_neg at hlt
      have s1 : m.width * m.height ≤ max w m.width * m.height :=
        Nat.mul_le_mul_right _ hWw
      have s2 : max w m.width * m.height < max w m.width * max h m.height := by
        apply Nat.mul_lt_mul_of_le_of_lt (Nat.le_refl _) hlt
        omega
      omega
    refine ⟨hwf, ?_, ?_⟩
    · exact le_trans (Nat.le_max_left _ _) hWle
    · exact le_trans (Nat.le_max_left _ _) hHle
  · refine ⟨?_, ?_, ?_⟩
    · unfold CharMap.wf
      rw [hlen, hw', hh']
    · rw [hw']; exact Nat.le_max_left _ _
    · rw [hh']; exact Nat.le_max_left _ _

/-- `CharMap::set` on a well-formed map stays well-formed, reaches the
target coordinates, and `get` reads back exactly the stored cell. -/
theorem set_spec (m : CharMap) (x y : Nat) (c : Char_) (hwf : m.wf) :
    (m.set x y c).wf ∧ x < (m.set x y c).width ∧ y < (m.set x y c).height
    ∧ (m.set x y c).get x y = c := by
  obtain ⟨hwf', hx', hy'⟩ :=
    reserve_spec m (x + 1) (y + 1) hwf (by omega) (by omega)
  set mr := m.reserve (x + 1) (y + 1) with hmr
  have hxw : x < mr.width := by omega
  have hyh : y < mr.height := by omega
  have hidx : x + y * mr.width < mr.data.length := by
    rw [hwf']
    calc x + y * mr.width < mr.width + y * mr.width := by omega
      _ = (y + 1) * mr.width := by ring
      _ ≤ mr.height * mr.width := Nat.mul_le_mul_right _ hyh
      _ = mr.width * mr.height := Nat.mul_comm _ _
  refine ⟨?_, hxw, hyh, ?_⟩
  · unfold CharMap.wf CharMap.set
    simp only [← hmr, List.length_set]
    exact hwf'
  · unfold CharMap.set CharMap.get
    simp only [← hmr]
    rw [if_neg (by omega)]
    exact list_getD_set_self _ _ _ _ hidx

/-- When the target cell is already inside a well-formed map, `set`
leaves the dimensions alone and just overwrites the one data slot. -/
theorem set_inbounds (m : CharMap) (x y : Nat) (c : Char_) (hwf : m.wf)
    (hx : x < m.width) (hy : y < m.height) :
    m.set x y c = { m with data := m.data.set (x + y * m.width) c } := by
  have hres : m.reserve (x + 1) (y + 1) = m := by
    unfold CharMap.reserve
    rw [Nat.max_eq_right (by omega), Nat.max_eq_right (by omega)]
    simp only [CharMap.resize, if_pos hwf.symm]
  unfold CharMap.set
  rw [hres]

/-- In-bounds `set` through the lens of `get`: the stored cell at the
target, everything else untouched. -/
theorem get_set (m : CharMap) (x y : Nat) (c : Char_) (hwf : m.wf)
    (hx : x < m.width) (hy : y < m.height) (x' y' : Nat) :
    (m.set x y c).get x' y' =
      if x' = x ∧ y' = y then c else m.get x' y' := by
  rw [set_inbounds m x y c hwf hx hy]
  unfold CharMap.get
  dsimp only
  by_cases hoob : x' ≥ m.width ∨ y' ≥ m.height
  · have hxy : ¬ (x' = x ∧ y' = y) := by
      rintro ⟨rfl, rfl⟩
      omega
    rw [if_pos hoob, if_neg hxy, if_pos hoob]
  · rw [if_neg hoob]
    push_neg at hoob
    by_cases hxy : x' = x ∧ y' = y
    · obtain ⟨rfl, rfl⟩ := hxy
      rw [if_pos (show x' = x' ∧ y' = y' from ⟨rfl, rfl⟩)]
      apply list_getD_set_self
      rw [hwf]
      calc x' + y' * m.width < m.width + y' * m.width := by omega
        _ = (y' + 1) * m.width := by ring
        _ ≤ m.height * m.width := Nat.mul_le_mul_right _ hy
        _ = m.width * m.height := Nat.mul_comm _ _
    · rw [if_neg hxy, if_neg (show ¬ (x' ≥ m.width ∨ y' ≥ m.height) by omega)]
      apply list_getD_set_ne
      intro heq
      have hinj := index_inj hx hoob.1 heq
      exact hxy ⟨hinj.1.symm, hinj.2.symm⟩

/-- C5 counterexample.  A cell holding a `Label` is freely overwritten
by a later `set`: starting from the 1×1 grid, storing `Label('a')` at
`(0,0)` and then `set(0, 0, Text('b'))` leaves `Text('b')` there, not
the label.  `CharMap::set` has no label guard at all. -/
theorem c5_counterexample :
    ((CharMap.new.set 0 0 (Char_.Label 'a' ())).get 0 0 = Char_.Label 'a' ())
    ∧ (((CharMap.new.set 0 0 (Char_.Label 'a' ())).set 0 0
          (Char_.Text 'b')).get 0 0 = Char_.Text 'b')
    ∧ Char_.Text 'b' ≠ Char_.Label 'a' () := by
  refine ⟨rfl, rfl, by decide⟩

/-- C5 (amended): `CharMap::set` is an unconditional store — on any
well-formed grid, after `set(x, y, c)` the cell at `(x, y)` reads back
as `c`, whatever was there before (so labels do *not* win; the drawing
primitives avoid overdrawing only by their own cell tests: `draw_marker`
writes only over free/horizontal cells and `draw_open_line` spares only
`SpanMargin`). -/
theorem c5_set_overwrites (m : CharMap) (x y : Nat) (c : Char_)
    (hwf : m.wf) : (m.set x y c).get x y = c :=
  (set_spec m x y c hwf).2.2.2

/-- C5 witness: overwriting a label cell on a concrete grid. -/
theorem c5_witness :
    ((CharMap.mk [Char_.Label 'a' ()] 1 1).set 0 0 (Char_.Text 'b')).get 0 0
      = Char_.Text 'b' :=
  c5_set_overwrites ⟨[Char_.Label 'a' ()], 1, 1⟩ 0 0 (Char_.Text 'b') (by decide)

theorem set_inbounds_facts (m : CharMap) (x y : Nat) (c : Char_)
    (hwf : m.wf) (hx : x < m.width) (hy : y < m.height) :
    (m.set x y c).wf ∧ (m.set x y c).width = m.width
    ∧ (m.set x y c).height = m.height := by
  rw [set_inbounds m x y c hwf hx hy]
  refine ⟨?_, rfl, rfl⟩
  unfold CharMap.wf
  dsimp only
  rw [List.length_set]
  exact hwf

theorem anyElig_zero (m : CharMap) (x lo : Nat) : anyElig m x lo 0 = false := rfl

theorem anyElig_succ (m : CharMap) (x lo n : Nat) :
    anyElig m x lo (n + 1) = (eligMarker (m.get x lo) || anyElig m x (lo + 1) n) := by
  unfold anyElig
  rw [List.range'_succ]
  rfl

theorem anyElig_congr (m1 m2 : CharMap) (x : Nat) :
    ∀ (len lo : Nat), (∀ i, lo ≤ i → i < lo + len → m1.get x i = m2.get x i) →
      anyElig m1 x lo len = anyElig m2 x lo len := by
  intro len
  induction len with
  | zero => intro lo _; rfl
  | succ n ih =>
    intro lo hsame
    rw [anyElig_succ, anyElig_succ, hsame lo (Nat.le_refl _) (by omega),
      ih (lo + 1) (fun i h1 h2 => hsame i (by omega) (by omega))]

theorem drawMarkerStep_eq (s : Style) (x j : Nat) (m : CharMap) (head : Bool) :
    CharMap.drawMarkerStep s x (m, head) j =
      if eligMarker (m.get x j) = true then
        (if head = true then (m.set x j (Char_.SpanVertical s.color), head)
         else (m.set x j (Char_.SpanMarker s.marker s.color), true))
      else (m, head) := rfl

/-- Full characterisation of the `for j in 1..=y` loop of
`CharMap::draw_marker`, run over the rows `[k, k + n)` from an arbitrary
`head` flag, on a well-formed map that already contains all those rows:
dimensions are unchanged, cells off the column or outside the row window
are unchanged, each row in the window becomes the marker (first eligible
row while `head` is unset), a vertical (later eligible rows), or stays
as it was (ineligible rows), and the final `head` flag records whether
any eligible row was seen. -/
theorem drawMarker_fold_spec (s : Style) (x : Nat) :
    ∀ (n k : Nat) (m : CharMap) (head : Bool), m.wf → x < m.width → k + n ≤ m.height →
      ((List.range' k n).foldl (CharMap.drawMarkerStep s x) (m, head)).1.width = m.width
      ∧ ((List.range' k n).foldl (CharMap.drawMarkerStep s x) (m, head)).1.height = m.height
      ∧ ((List.range' k n).foldl (CharMap.drawMarkerStep s x) (m, head)).1.wf
      ∧ (∀ x' y', (x' ≠ x ∨ y' < k ∨ k + n ≤ y') →
          ((List.range' k n).foldl (CharMap.drawMarkerStep s x) (m, head)).1.get x' y'
            = m.get x' y')
      ∧ (∀ j, k ≤ j → j < k + n →
          ((List.range' k n).foldl (CharMap.drawMarkerStep s x) (m, head)).1.get x j
            = (if eligMarker (m.get x j) = true then
                (if (head || anyElig m x k (j - k)) = true then Char_.SpanVertical s.color
                 else Char_.SpanMarker s.marker s.color)
               else m.get x j))
      ∧ ((List.range' k n).foldl (CharMap.drawMarkerStep s x) (m, head)).2
          = (head || anyElig m x k n) := by
  intro n
  induction n with
  | zero =>
    intro k m head hwf hx _
    refine ⟨rfl, rfl, hwf, fun x' y' _ => rfl, fun j h1 h2 => by omega, ?_⟩
    rw [anyElig_zero, Bool.or_false]
    rfl
  | succ n ih =>
    intro k m head hwf hx hkn
    have hkh : k < m.height := by omega
    rw [List.range'_succ, List.foldl_cons, drawMarkerStep_eq]
    by_cases helig : eligMarker (m.get x k) = true
    · rw [if_pos helig]
      -- Shared analysis of the tail fold from `(m.set x k cc, true)`,
      -- for whichever cell `cc` the step stored at row `k`.
      have aux : ∀ cc : Char_,
          ((List.range' (k + 1) n).foldl (CharMap.drawMarkerStep s x)
            (m.set x k cc, true)).1.width = m.width
          ∧ ((List.range' (k + 1) n).foldl (CharMap.drawMarkerStep s x)
              (m.set x k cc, true)).1.height = m.height
          ∧ ((List.range' (k + 1) n).foldl (CharMap.drawMarkerStep s x)
              (m.set x k cc, true)).1.wf
          ∧ (∀ x' y', (x' ≠ x ∨ y' < k ∨ k + (n + 1) ≤ y') →
              ((List.range' (k + 1) n).foldl (CharMap.drawMarkerStep s x)
                (m.set x k cc, true)).1.get x' y' = m.get x' y')
          ∧ (((List.range' (k + 1) n).foldl (CharMap.drawMarkerStep s x)
              (m.set x k cc, true)).1.get x k = cc)
          ∧ (∀ j, k + 1 ≤ j → j < k + (n + 1) →
              ((List.range' (k + 1) n).foldl (CharMap.drawMarkerStep s x)
                (m.set x k cc, true)).1.get x j
                = (if eligMarker (m.get x j) = true then Char_.SpanVertical s.color
                   else m.get x j))
          ∧ ((List.range' (k + 1) n).foldl (CharMap.drawMarkerStep s x)
              (m.set x k cc, true)).2 = true := by
        intro cc
        obtain ⟨hwf1, hW1, hH1⟩ := set_inbounds_facts m x k cc hwf hx hkh
        have hget := get_set m x k cc hwf hx hkh
        have hsame : ∀ j, j ≠ k → (m.set x k cc).get x j = m.get x j := by
          intro j hj
          rw [hget x j, if_neg (by tauto)]
        have ih' := ih (k + 1) (m.set x k cc) true hwf1 (by omega) (by omega)
        obtain ⟨iW, iH, iwf, iframe, irows, iflag⟩ := ih'
        refine ⟨by rw [iW, hW1], by rw [iH, hH1], iwf, ?_, ?_, ?_, ?_⟩
        · intro x' y' hc
          have h1 : ((List.range' (k + 1) n).foldl (CharMap.drawMarkerStep s x)
              (m.set x k cc, true)).1.get x' y' = (m.set x k cc).get x' y' := by
            apply iframe
            rcases hc with h | h | h
            · exact Or.inl h
            · exact Or.inr (Or.inl (by omega))
            · exact Or.inr (Or.inr (by omega))
          rw [h1, hget x' y', if_neg]
          rintro ⟨rfl, rfl⟩
          rcases hc with h | h | h
          · exact h rfl
          · omega
          · omega
        · have h1 : ((List.range' (k + 1) n).foldl (CharMap.drawMarkerStep s x)
              (m.set x k cc, true)).1.get x k = (m.set x k cc).get x k :=
            iframe x k (Or.inr (Or.inl (by omega)))
          rw [h1, hget x k, if_pos ⟨rfl, rfl⟩]
        · intro j hj1 hj2
          rw [irows j hj1 (by omega), hsame j (by omega), Bool.true_or]
          split
          · rfl
          · rfl
        · rw [iflag, Bool.true_or]
      by_cases hh : head = true
      · subst hh
        rw [if_pos rfl]
        obtain ⟨aW, aH, awf, aframe, arowk, arows, aflag⟩ :=
          aux (Char_.SpanVertical s.color)
        refine ⟨aW, aH, awf, aframe, ?_, by rw [aflag, Bool.true_or]⟩
        intro j h1 h2
        by_cases hjk : j = k
        · subst hjk
          rw [arowk, if_pos helig, Bool.true_or, if_pos rfl]
        · rw [arows j (by omega) h2, Bool.true_or, if_pos rfl]
      · have hhf : head = false := by
          cases head
          · rfl
          · exact absurd rfl hh
        subst hhf
        rw [if_neg (by simp)]
        obtain ⟨aW, aH, awf, aframe, arowk, arows, aflag⟩ :=
          aux (Char_.SpanMarker s.marker s.color)
        refine ⟨aW, aH, awf, aframe, ?_, ?_⟩
        · intro j h1 h2
          by_cases hjk : j = k
          · subst hjk
            rw [arowk, if_pos helig, Nat.sub_self, anyElig_zero,
              Bool.false_or, if_neg (by simp)]
          · rw [arows j (by omega) h2]
            have hdk : j - k = (j - (k + 1)) + 1 := by omega
            rw [hdk, anyElig_succ, helig, Bool.true_or, Bool.false_or,
              if_pos rfl]
        · rw [aflag, anyElig_succ, helig, Bool.true_or, Bool.or_true]
    · rw [if_neg helig]
      have hfalse : eligMarker (m.get x k) = false := by
        revert helig
        cases eligMarker (m.get x k) <;> simp
      have ih' := ih (k + 1) m head hwf hx (by omega)
      obtain ⟨iW, iH, iwf, iframe, irows, iflag⟩ := ih'
      refine ⟨iW, iH, iwf, ?_, ?_, ?_⟩
      · intro x' y' hc
        apply iframe
        rcases hc with h | h | h
        · exact Or.inl h
        · exact Or.inr (Or.inl (by omega))
        · exact Or.inr (Or.inr (by omega))
      · intro j h1 h2
        by_cases hjk : j = k
        · subst hjk
          rw [iframe x j (Or.inr (Or.inl (by omega))), if_neg helig]
        · have hj1 : k + 1 ≤ j := by omega
          have hdk : j - k = (j - (k + 1)) + 1 := by omega
          rw [irows j hj1 (by omega), hdk, anyElig_succ, hfalse, Bool.false_or]
      · rw [iflag, anyElig_succ, hfalse, Bool.false_or]

/-- C3 counterexample.  Two failures of the claim as stated:
(1) on the 1×1 empty grid, `draw_marker(Error, 3, 0)` places the marker
on row 1 and paints rows 2 and 3 — the rows *below* the placement
(towards `y`) — as `SpanVertical`, although the claim says every other
cell is unchanged and only rows strictly *above* the placement become
vertical; (2) when the write forces the grid to grow, the align rule can
change cells in a completely different column: with `SpanMargin` at
`(0,0)`, `draw_marker(Error, 1, 1)` turns the out-of-range-Empty cell
`(0,1)` into `SpanMargin`. -/
theorem c3_counterexample :
    ((CharMap.new.draw_marker Style.Error 3 0).get 0 1
        = Char_.SpanMarker '^' ()
      ∧ (CharMap.new.draw_marker Style.Error 3 0).get 0 2
        = Char_.SpanVertical ()
      ∧ CharMap.new.get 0 2 = Char_.Empty
      ∧ Char_.SpanVertical () ≠ Char_.Empty)
    ∧ (((CharMap.new.set 0 0 (Char_.SpanMargin ())).draw_marker
          Style.Error 1 1).get 0 1 = Char_.SpanMargin ()
      ∧ (CharMap.new.set 0 0 (Char_.SpanMargin ())).get 0 1 = Char_.Empty
      ∧ Char_.SpanMargin () ≠ Char_.Empty) := by
  refine ⟨⟨rfl, rfl, rfl, by decide⟩, rfl, rfl, by decide⟩

/-- C3 (amended): on a well-formed grid that already contains column `x`
and rows up to `y` (so no growth, hence no align-rule side effects),
`draw_marker(s, y, x)` places `SpanMarker(marker, color)` at column `x`
on the first row in `1..=y` whose cell is Empty or SpanHorizontal, and
turns every *later* such row (strictly below the placement, down to row
`y`) into `SpanVertical(color)`; rows in the window that are neither
Empty nor SpanHorizontal, and every cell outside column `x` or outside
rows `1..=y`, are unchanged; if no row in the window is eligible,
nothing changes. -/
theorem c3_draw_marker (m : CharMap) (s : Style) (y x : Nat)
    (hwf : m.wf) (hx : x < m.width) (hy : y < m.height) :
    (∀ x' y', (x' ≠ x ∨ y' < 1 ∨ y < y') →
        (m.draw_marker s y x).get x' y' = m.get x' y')
    ∧ (∀ j, 1 ≤ j → j ≤ y → eligMarker (m.get x j) = false →
        (m.draw_marker s y x).get x j = m.get x j)
    ∧ (∀ j, 1 ≤ j → j ≤ y → eligMarker (m.get x j) = true →
        (∀ i, 1 ≤ i → i < j → eligMarker (m.get x i) = false) →
        (m.draw_marker s y x).get x j = Char_.SpanMarker s.marker s.color
        ∧ (∀ j', j < j' → j' ≤ y → eligMarker (m.get x j') = true →
            (m.draw_marker s y x).get x j' = Char_.SpanVertical s.color)) := by
  obtain ⟨_, _, _, hframe, hrows, _⟩ :=
    drawMarker_fold_spec s x y 1 m false hwf hx (by omega)
  refine ⟨?_, ?_, ?_⟩
  · intro x' y' hc
    apply hframe
    rcases hc with h | h | h
    · exact Or.inl h
    · exact Or.inr (Or.inl h)
    · exact Or.inr (Or.inr (by omega))
  · intro j h1 h2 hne
    unfold CharMap.draw_marker
    rw [hrows j h1 (by omega), hne]
    rfl
  · intro j h1 h2 helig hnone
    have hanyfalse : anyElig m x 1 (j - 1) = false := by
      unfold anyElig
      rw [List.any_eq_false]
      intro i hmem
      rw [List.mem_range'_1] at hmem
      rw [hnone i hmem.1 (by omega)]
      simp
    constructor
    · unfold CharMap.draw_marker
      rw [hrows j h1 (by omega), helig, if_pos rfl, hanyfalse]
      rfl
    · intro j' hj1 hj2 helig'
      have hanytrue : anyElig m x 1 (j' - 1) = true := by
        unfold anyElig
        rw [List.any_eq_true]
        refine ⟨j, ?_, by rw [helig]⟩
        rw [List.mem_range'_1]
        omega
      unfold CharMap.draw_marker
      rw [hrows j' (by omega) (by omega), helig', if_pos rfl, hanytrue]
      rfl

/-- C3 witness: on an in-bounds 1×4 empty column, the marker lands on
row 1 and row 3 (also eligible) becomes a vertical. -/
theorem c3_witness :
    ((CharMap.mk (List.replicate 4 Char_.Empty) 1 4).draw_marker
        Style.Error 3 0).get 0 1 = Char_.SpanMarker '^' ()
    ∧ ((CharMap.mk (List.replicate 4 Char_.Empty) 1 4).draw_marker
        Style.Error 3 0).get 0 3 = Char_.SpanVertical () := by
  have h := (c3_draw_marker ⟨List.replicate 4 Char_.Empty, 1, 4⟩ Style.Error 3 0
    (by decide) (by decide) (by decide)).2.2 1 (by decide) (by decide) (by decide)
    (fun i hi hlt => by omega)
  exact ⟨h.1, h.2 3 (by decide) (by decide) (by decide)⟩

/-- C1 counterexample.  For the error-free stream `"Hello\nWorld!"`, a
`Formatter` with default settings (line numbers shown — but also the
default viewbox of 2), no highlights, the default metrics and a bounding
span covering the whole text, `render` returns `Ok`, but the display is
a single row holding one space: with a viewbox set and no highlight, no
line is important, so only the untouched initial 1×1 grid is emitted —
not the two rows `"1 | Hello"` and `"2 | World!"` the claim expects. -/
theorem c1_counterexample :
    (Formatter.default.render
        (("Hello\nWorld!".toList).map Except.ok : List (Except Nat Char))
        ⟨⟨0, 0⟩, ⟨1, 5⟩, ⟨1, 6⟩⟩ defaultMetrics).map Formatted.display
      = Except.ok [' ', '\n']
    ∧ ([' ', '\n'] : List Char) ≠ "1 | Hello\n2 | World!\n".toList := by
  exact ⟨rfl, by decide⟩

/-- C1 (amended): with the true default settings the render of
`"Hello\nWorld!"` succeeds and displays exactly one row containing a
single space (no line is important without highlights under the default
viewbox).  Only after disabling the viewbox (`set_viewbox None`) do the
rows `"1 | Hello"` and `"2 | World!"` appear — and even then they are
preceded by the blank row of the untouched initial grid. -/
theorem c1_hello_world_render :
    ((Formatter.default.render
        (("Hello\nWorld!".toList).map Except.ok : List (Except Nat Char))
        ⟨⟨0, 0⟩, ⟨1, 5⟩, ⟨1, 6⟩⟩ defaultMetrics).map Formatted.display
      = Except.ok " \n".toList)
    ∧ (((Formatter.default.set_viewbox none).render
        (("Hello\nWorld!".toList).map Except.ok : List (Except Nat Char))
        ⟨⟨0, 0⟩, ⟨1, 5⟩, ⟨1, 6⟩⟩ defaultMetrics).map Formatted.display
      = Except.ok " \n1 | Hello\n2 | World!\n".toList) := by
  exact ⟨rfl, rfl⟩

theorem stepNewline_pos (f : Formatter) (lnm margin : Nat)
    (il : ImportantLines) (metrics : Metrics) (st : RenderState) :
    (stepNewline f lnm margin il metrics st).pos = st.pos := by
  unfold stepNewline
  split <;> rfl

theorem stepChar_pos (f : Formatter) (margin : Nat) (c : Char)
    (st : RenderState) : (stepChar f margin c st).pos = st.pos := by
  unfold stepChar
  split <;> rfl

/-- The scan step of `render` applied to one upstream character: state
update then cursor advance. -/
theorem renderLoop_cons_ok {E : Type} (f : Formatter) (span : Span)
    (metrics : Metrics) (margin lnm : Nat) (il : ImportantLines)
    (c : Char) (rest : List (Except E Char)) (st : RenderState)
    (hlt : ¬ Position.ltP span.last st.pos) :
    renderLoop f span metrics margin lnm il (Except.ok c :: rest) st
      = renderLoop f span metrics margin lnm il rest
          (let st' :=
            if c = '\n' then stepNewline f lnm margin il metrics st
            else if c = '\t' then st
            else stepChar f margin c st
           { st' with pos := st'.pos.next c metrics }) := by
  rw [renderLoop]
  rw [if_neg hlt]

/-- If the stream yields a failure at a point the scan reaches (the
cursor is still at or before `span.last()` there), the loop returns that
failure unchanged, whatever follows it. -/
theorem renderLoop_error {E : Type} (f : Formatter) (span : Span)
    (metrics : Metrics) (margin lnm : Nat) (il : ImportantLines) (e : E)
    (suffix : List (Except E Char)) (hts : 1 ≤ metrics.tab_stop) :
    ∀ (pre : List Char) (st : RenderState),
      (posAfter metrics st.pos pre).leP span.last →
      renderLoop f span metrics margin lnm il
        (pre.map Except.ok ++ Except.error e :: suffix) st = Except.error e := by
  intro pre
  induction pre with
  | nil =>
    intro st h
    have hlt : ¬ Position.ltP span.last st.pos := Position.not_ltP_of_leP h
    rw [List.map_nil, List.nil_append]
    show (if Position.ltP span.last st.pos then Except.ok st else Except.error e)
      = Except.error e
    rw [if_neg hlt]
  | cons c pre ih =>
    intro st h
    have h' : (posAfter metrics (st.pos.next c metrics) pre).leP span.last := h
    have hle : st.pos.leP span.last :=
      Position.leP_trans (next_mono st.pos c metrics hts)
        (Position.leP_trans (posAfter_mono metrics hts pre (st.pos.next c metrics)) h')
    rw [List.map_cons, List.cons_append,
      renderLoop_cons_ok f span metrics margin lnm il c _ st
        (Position.not_ltP_of_leP hle)]
    apply ih
    show (posAfter metrics _ pre).leP span.last
    have hpos : (let st' :=
        if c = '\n' then stepNewline f lnm margin il metrics st
        else if c = '\t' then st
        else stepChar f margin c st
       { st' with pos := st'.pos.next c metrics }).pos = st.pos.next c metrics := by
      by_cases h1 : c = '\n'
      · simp only [if_pos h1, stepNewline_pos]
      · by_cases h2 : c = '\t'
        · simp only [if_neg h1, if_pos h2]
        · simp only [if_neg h1, if_neg h2, stepChar_pos]
    rw [hpos]
    exact h'

/-- C6: if the input iterator yields `Err(e)` at a point reached while
the cursor is still `≤ span.last()` (all preceding items being `Ok`
characters), `render` returns that same error unchanged and produces no
`Formatted` output; the items after the failure are irrelevant.  The
positive tab stop rules out the division-by-zero panic `'\t'` would
otherwise trigger inside the scan. -/
theorem c6_error_propagation {E : Type} (f : Formatter) (span : Span)
    (metrics : Metrics) (pre : List Char) (e : E)
    (suffix : List (Except E Char)) (hts : 1 ≤ metrics.tab_stop)
    (hreach : (posAfter metrics span.start pre).leP span.last) :
    f.render (pre.map Except.ok ++ Except.error e :: suffix) span metrics
      = Except.error e := by
  simp only [Formatter.render]
  rw [renderLoop_error f span metrics _ _ _ e suffix hts pre _ hreach]

/-- C6 witness: a two-item stream failing immediately inside the span. -/
theorem c6_witness :
    Formatter.default.render
        ([Except.error 7, Except.ok 'a'] : List (Except Nat Char))
        ⟨⟨0, 0⟩, ⟨0, 0⟩, ⟨0, 1⟩⟩ defaultMetrics = Except.error 7 :=
  c6_error_propagation Formatter.default ⟨⟨0, 0⟩, ⟨0, 0⟩, ⟨0, 1⟩⟩
    defaultMetrics [] 7 [Except.ok 'a'] (by decide) (by decide)

theorem dropLast_append_head (l : List CharMap) (x : CharMap)
    (h : 2 ≤ l.length) : (l.dropLast ++ [x]).head? = l.head? := by
  rw [List.head?_append, List.head?_dropLast, if_pos (by omega)]
  rcases l with _ | ⟨a, l⟩
  · simp at h
  · rfl

theorem dropLast_append_length (l : List CharMap) (x : CharMap)
    (h : l ≠ []) : (l.dropLast ++ [x]).length = l.length := by
  rw [List.length_append, List.length_dropLast]
  have : 1 ≤ l.length := List.length_pos.2 h
  simp
  omega

theorem append_singleton_head (l : List CharMap) (x : CharMap)
    (h : l ≠ []) : (l ++ [x]).head? = l.head? := by
  rw [List.head?_append]
  rcases l with _ | ⟨a, l⟩
  · exact absurd rfl h
  · rfl

/-- Finalizing a line only replaces the last grid: the head and the
number of grids are untouched (provided at least two grids exist, so
the head is not the last). -/
theorem finalizeLine_lines (f : Formatter) (line lnm margin : Nat)
    (metrics : Metrics) (fnw : Option Nat) (lines : List CharMap)
    (mapped : List MappedHighlight) (h2 : 2 ≤ lines.length) :
    (finalizeLine f line lnm margin metrics fnw lines mapped).1.head? = lines.head?
    ∧ (finalizeLine f line lnm margin metrics fnw lines mapped).1.length
        = lines.length := by
  unfold finalizeLine
  cases hL : lines.getLast? with
  | none => exact ⟨rfl, rfl⟩
  | some last =>
    have hne : lines ≠ [] := by
      intro h
      subst h
      simp at hL
    exact ⟨dropLast_append_head lines _ h2, dropLast_append_length lines _ hne⟩

theorem modifyLast_lines (g : CharMap → CharMap) (lines : List CharMap)
    (h2 : 2 ≤ lines.length) :
    (modifyLast g lines).head? = lines.head?
    ∧ (modifyLast g lines).length = lines.length := by
  unfold modifyLast
  cases hL : lines.getLast? with
  | none => exact ⟨rfl, rfl⟩
  | some last =>
    have hne : lines ≠ [] := by
      intro h
      subst h
      simp at hL
    exact ⟨dropLast_append_head lines _ h2, dropLast_append_length lines _ hne⟩

theorem stepNewlineFinalized_lines (f : Formatter) (lnm margin : Nat)
    (metrics : Metrics) (st : RenderState) (hinv : RenderInv st) :
    (stepNewlineFinalized f lnm margin metrics st).1.head? = some CharMap.new
    ∧ (stepNewlineFinalized f lnm margin metrics st).1 ≠ [] := by
  obtain ⟨hhead, himp⟩ := hinv
  have hne : st.lines ≠ [] := by
    intro h
    rw [h] at hhead
    exact Option.noConfusion hhead
  unfold stepNewlineFinalized
  by_cases hi : st.is_important_line = true
  · rw [if_pos hi]
    obtain ⟨hh, hl⟩ := finalizeLine_lines f st.pos.line lnm margin metrics
      st.first_non_whitespace st.lines st.mapped (himp hi)
    refine ⟨by rw [hh]; exact hhead, ?_⟩
    intro hnil
    have h2 := himp hi
    rw [hnil] at hl
    simp only [List.length_nil] at hl
    omega
  · rw [if_neg hi]
    exact ⟨hhead, hne⟩

theorem stepNewlineViewboxed_lines (f : Formatter) (lnm margin : Nat)
    (metrics : Metrics) (st : RenderState)
    (lm : List CharMap × List MappedHighlight) (hne : lm.1 ≠ []) :
    (stepNewlineViewboxed f lnm margin metrics st lm).1.head? = lm.1.head?
    ∧ (stepNewlineViewboxed f lnm margin metrics st lm).1 ≠ [] := by
  unfold stepNewlineViewboxed
  split
  · exact ⟨append_singleton_head _ _ hne, by simp⟩
  · exact ⟨rfl, hne⟩

theorem stepNewline_inv (f : Formatter) (lnm margin : Nat)
    (il : ImportantLines) (metrics : Metrics) (st : RenderState)
    (hinv : RenderInv st) :
    RenderInv (stepNewline f lnm margin il metrics st) := by
  obtain ⟨hfh, hfne⟩ := stepNewlineFinalized_lines f lnm margin metrics st hinv
  obtain ⟨hvh, hvne⟩ := stepNewlineViewboxed_lines f lnm margin metrics st
    (stepNewlineFinalized f lnm margin metrics st) hfne
  unfold stepNewline RenderInv
  simp only []
  by_cases hC : il.includes (st.pos.line + 1) = true
  · rw [if_pos hC]
    refine ⟨?_, ?_⟩
    · show (_ ++ [CharMap.new]).head? = some CharMap.new
      rw [append_singleton_head _ _ hvne, hvh]
      exact hfh
    · intro _
      show 2 ≤ (_ ++ [CharMap.new]).length
      rw [List.length_append]
      have := List.length_pos.2 hvne
      simp only [List.length_cons, List.length_nil]
      omega
  · rw [if_neg hC]
    exact ⟨hfh, fun h => Bool.noConfusion h⟩

theorem stepChar_inv (f : Formatter) (margin : Nat) (c : Char)
    (st : RenderState) (hinv : RenderInv st) :
    RenderInv (stepChar f margin c st) := by
  obtain ⟨hhead, himp⟩ := hinv
  unfold stepChar
  split
  · next hi =>
    obtain ⟨hh, hl⟩ := modifyLast_lines
      (fun lm => lm.set (margin + st.pos.column) 0 (Char_.Text c))
      st.lines (himp hi)
    exact ⟨hh.trans hhead, fun _ => hl ▸ himp hi⟩
  · exact ⟨hhead, himp⟩

theorem renderLoop_inv {E : Type} (f : Formatter) (span : Span)
    (metrics : Metrics) (margin lnm : Nat) (il : ImportantLines) :
    ∀ (input : List (Except E Char)) (st st' : RenderState),
      RenderInv st →
      renderLoop f span metrics margin lnm il input st = Except.ok st' →
      RenderInv st' := by
  intro input
  induction input with
  | nil =>
    intro st st' hinv heq
    cases heq
    exact hinv
  | cons c rest ih =>
    intro st st' hinv heq
    by_cases hlt : Position.ltP span.last st.pos
    · cases c with
      | error e =>
        rw [renderLoop, if_pos hlt] at heq
        cases heq
        exact hinv
      | ok c =>
        rw [renderLoop, if_pos hlt] at heq
        cases heq
        exact hinv
    · cases c with
      | error e =>
        rw [renderLoop, if_neg hlt] at heq
        exact Except.noConfusion heq
      | ok c =>
        rw [renderLoop_cons_ok f span metrics margin lnm il c rest st hlt] at heq
        refine ih _ st' ?_ heq
        constructor
        · show (if c = '\n' then stepNewline f lnm margin il metrics st
            else if c = '\t' then st else stepChar f margin c st).lines.head?
              = some CharMap.new
          split
          · exact (stepNewline_inv f lnm margin il metrics st hinv).1
          · split
            · exact hinv.1
            · exact (stepChar_inv f margin c st hinv).1
        · show (if c = '\n' then stepNewline f lnm margin il metrics st
            else if c = '\t' then st
            else stepChar f margin c st).is_important_line = true → _
          split
          · exact (stepNewline_inv f lnm margin il metrics st hinv).2
          · split
            · exact hinv.2
            · exact (stepChar_inv f margin c st hinv).2

/-- C9: a successful `render` always keeps the untouched initial 1×1
empty grid as the first per-line grid, so the display starts with a row
holding a single space, before any source line. -/
theorem c9_initial_blank_row {E : Type} (f : Formatter)
    (input : List (Except E Char)) (span : Span) (metrics : Metrics)
    (F : Formatted) (hok : f.render input span metrics = Except.ok F) :
    ∃ rest, F.maps = CharMap.new :: rest
      ∧ F.display = ' ' :: '\n' :: Formatted.display ⟨rest⟩ := by
  have hmain : ∀ (margin lnm : Nat) (il : ImportantLines) (st0 : RenderState),
      RenderInv st0 →
      (match renderLoop f span metrics margin lnm il input st0 with
       | .error e => .error e
       | .ok st => .ok (Formatted.mk (if st.is_important_line = true then
            (finalizeLine f st.pos.line lnm margin metrics
              st.first_non_whitespace st.lines st.mapped).1
          else st.lines))) = Except.ok F →
      ∃ rest, F.maps = CharMap.new :: rest
        ∧ F.display = ' ' :: '\n' :: Formatted.display ⟨rest⟩ := by
    intro margin lnm il st0 hinv heq
    cases hR : renderLoop f span metrics margin lnm il input st0 with
    | error e =>
      rw [hR] at heq
      exact Except.noConfusion heq
    | ok st =>
      rw [hR] at heq
      have hinv' := renderLoop_inv f span metrics margin lnm il input st0 st hinv hR
      have hF : F = Formatted.mk (if st.is_important_line = true then
          (finalizeLine f st.pos.line lnm margin metrics
            st.first_non_whitespace st.lines st.mapped).1
        else st.lines) := (Except.ok.inj heq).symm
      have hhead : F.maps.head? = some CharMap.new := by
        rw [hF]
        by_cases hi : st.is_important_line = true
        · rw [if_pos hi]
          rw [(finalizeLine_lines f st.pos.line lnm margin metrics
            st.first_non_whitespace st.lines st.mapped (hinv'.2 hi)).1]
          exact hinv'.1
        · rw [if_neg hi]
          exact hinv'.1
      rcases hmaps : F.maps with _ | ⟨a, rest⟩
      · rw [hmaps] at hhead
        exact Option.noConfusion hhead
      · rw [hmaps] at hhead
        have ha : a = CharMap.new := Option.some.inj hhead
        subst ha
        refine ⟨rest, rfl, ?_⟩
        show F.display = ' ' :: '\n' :: Formatted.display ⟨rest⟩
        unfold Formatted.display
        rw [hmaps, List.flatMap_cons]
        rfl
  simp only [Formatter.render] at hok
  apply hmain _ _ _ _ ?_ hok
  constructor
  · dsimp only
    split <;> rfl
  · intro h
    dsimp only at h ⊢
    rw [if_pos h]
    rfl

/-- C9 witness: the empty stream under the default formatter renders to
exactly the initial blank grid. -/
theorem c9_witness :
    ∃ rest, (Formatted.mk [CharMap.new]).maps = CharMap.new :: rest
      ∧ (Formatted.mk [CharMap.new]).display
          = ' ' :: '\n' :: Formatted.display ⟨rest⟩ :=
  c9_initial_blank_row Formatter.default ([] : List (Except Nat Char))
    ⟨⟨0, 0⟩, ⟨0, 0⟩, ⟨0, 0⟩⟩ defaultMetrics ⟨[CharMap.new]⟩ rfl

end SourceSpan
